import Mathlib

/-!
Verification development for the pubmed paper fetcher core
(`papers_fetcher/fetcher.py`).

The Python source is shallowly embedded: pure helpers become Lean
functions, optional XML fields become `Option String` (mirroring
`ElementTree.findtext`, which yields `None` for an absent element and the
element's text otherwise), the network transport becomes an explicit
outcome parameter, and a raised exception inside per-article assembly is
an `Except.error`.
-/

/-! ## Keyword heuristics (`COMPANY_KEYWORDS`, `ACADEMIC_KEYWORDS`) -/

def COMPANY_KEYWORDS : List String :=
  ["pharmaceutical", "pharma", "biotech", "biotechnology", "inc.", "llc",
   "corp.", "corporation", "co.", "company", "gmbh", "s.a.", "ag",
   "laboratories", "labs",
   "r&d", "research and development", "global", "solutions",
   "therapeutics", "diagnostics", "medicines", "drug discovery",
   "pfizer", "novartis", "roche", "gilead", "amgen", "moderna", "biontech",
   "astrazeneca", "johnson & johnson", "merck", "eli lilly", "sanofi"]

def ACADEMIC_KEYWORDS : List String :=
  ["university", "institute", "college", "school", "department",
   "faculty", "hospital", "medical center", "center for disease control",
   "public health", "federal agency", "nih", "cdc", "who", "fda", "ema"]

/-- Boolean test that `needle` begins `haystack` (Python slice equality). -/
def listPrefixB : List Char → List Char → Bool
  | [], _ => true
  | _ :: _, [] => false
  | a :: as, b :: bs => a == b && listPrefixB as bs

/-- Boolean substring containment on character lists: Python's `needle in haystack`. -/
def listContainsB (needle : List Char) : List Char → Bool
  | [] => needle.isEmpty
  | b :: bs => listPrefixB needle (b :: bs) || listContainsB needle bs

/-- Python `needle in haystack` on strings. -/
def substrOf (needle haystack : String) : Bool :=
  listContainsB needle.data haystack.data

/-- Python `str.lower()`, character by character (the two case mappings
agree on the ASCII strings this program works with). -/
def pyLower (s : String) : String :=
  String.mk (s.data.map Char.toLower)

/-- Python `str.strip()`: drop whitespace from both ends. -/
def pyStrip (s : String) : String :=
  String.mk (((s.data.dropWhile Char.isWhitespace).reverse.dropWhile
    Char.isWhitespace).reverse)

/-- Embeds `is_corporate_affiliation` (fetcher.py lines 47-70). -/
def is_corporate_affiliation (affiliation : String) : Bool :=
  let affiliation_lower := pyLower affiliation
  let has_company_keyword :=
    COMPANY_KEYWORDS.any (fun word => substrOf word affiliation_lower)
  let has_academic_keyword :=
    ACADEMIC_KEYWORDS.any (fun word => substrOf word affiliation_lower)
  has_company_keyword && !has_academic_keyword

/-! ## Email extraction (`extract_first_email_from_text`, lines 73-78)

The Python implementation is
`re.findall(r"[A-Za-z0-9._%+-]+@[A-Za-z0-9.-]+\.[A-Za-z]{2,}", text)` and
returns the first match or `None`.  The regex engine is embedded directly
for this concrete pattern: at each start position the engine consumes a
maximal run of local-part characters (no backtracking can help, since `@`
is not a local-part character), requires `@`, then consumes domain
characters greedily and gives characters back one at a time until the
mandatory `\.` and a greedy run of at least two letters match.  `trySplit`
enumerates the candidate domain lengths in the engine's decreasing order;
candidates longer than the maximal domain-character run are rejected by
the `all isDomainChar` conjunct, so starting from the full tail length is
equivalent. -/

def isLocalChar (c : Char) : Bool :=
  c.isAlpha || c.isDigit || c == '.' || c == '_' || c == '%' || c == '+' || c == '-'

def isDomainChar (c : Char) : Bool :=
  c.isAlpha || c.isDigit || c == '.' || c == '-'

/-- The text matched when the domain part consumes `d` characters. -/
def splitResult (cs : List Char) (d : Nat) : List Char :=
  cs.take d ++ '.' :: (cs.drop (d + 1)).takeWhile Char.isAlpha

/-- Candidate domain length `d` succeeds: nonempty all-domain run, then a
literal dot, then at least two letters. -/
def validSplit (cs : List Char) (d : Nat) : Prop :=
  1 ≤ d ∧ (cs.take d).all isDomainChar = true ∧ cs.get? d = some '.' ∧
    2 ≤ ((cs.drop (d + 1)).takeWhile Char.isAlpha).length

instance (cs : List Char) (d : Nat) : Decidable (validSplit cs d) := by
  unfold validSplit; infer_instance

/-- Try domain lengths `k, k-1, ..., 1` in order (the greedy engine order). -/
def trySplit (cs : List Char) : Nat → Option (List Char)
  | 0 => none
  | d + 1 =>
    if validSplit cs (d + 1) then some (splitResult cs (d + 1))
    else trySplit cs d

/-- Match `[A-Za-z0-9.-]+\.[A-Za-z]{2,}` at the start of `cs`. -/
def matchTail (cs : List Char) : Option (List Char) :=
  trySplit cs cs.length

/-- Match the whole email pattern at the start of `cs`: a maximal nonempty
local-part run, a literal `@`, then the domain tail. -/
def findEmailAt (cs : List Char) : Option (List Char) :=
  if cs.takeWhile isLocalChar ≠ [] ∧ (cs.dropWhile isLocalChar).head? = some '@' then
    (matchTail (cs.dropWhile isLocalChar).tail).map
      (fun dom => cs.takeWhile isLocalChar ++ '@' :: dom)
  else none

/-- Scan start positions left to right, as `re.findall` does. -/
def scanEmail : List Char → Option (List Char)
  | [] => none
  | c :: cs =>
    match findEmailAt (c :: cs) with
    | some m => some m
    | none => scanEmail cs

/-- Embeds `extract_first_email_from_text` (fetcher.py lines 73-78). -/
def extract_first_email_from_text (text : String) : Option String :=
  (scanEmail text.data).map (fun l => String.mk l)

/-- Declarative shape of the email regex, for stating claims about the
extractor: local part, `@`, domain characters, a dot, and a TLD of at
least two letters. -/
def EmailShape (m : List Char) : Prop :=
  ∃ loc dom tld, m = loc ++ '@' :: (dom ++ '.' :: tld) ∧
    loc ≠ [] ∧ loc.all isLocalChar = true ∧
    dom ≠ [] ∧ dom.all isDomainChar = true ∧
    2 ≤ tld.length ∧ tld.all Char.isAlpha = true

/-! ## Data model

`Option String` fields mirror `findtext`: `none` when the element is
absent, `some s` when present with text `s`.  Python truthiness of such a
value is `truthy`. -/

def truthy : Option String → Bool
  | none => false
  | some s => s != ""

/-- Python `x or "N/A"` applied to a `findtext` result (lines 143-144). -/
def orNA (o : Option String) : String :=
  match o with
  | none => "N/A"
  | some s => if s = "" then "N/A" else s

structure Author where
  lastName : Option String
  foreName : Option String
  affiliation : Option String
  deriving DecidableEq, Repr

structure PubDate where
  year : Option String
  month : Option String
  day : Option String
  medlineDate : Option String
  deriving DecidableEq, Repr

/-- One `<PubmedArticle>` element of the batch-detail response. -/
structure Article where
  pmid : Option String
  articleTitle : Option String
  pubDate : Option PubDate
  authors : List Author
  abstractText : Option String
  deriving DecidableEq, Repr

/-- Embeds the `PaperInfo` dataclass (fetcher.py lines 34-44). -/
structure PaperInfo where
  pubmed_id : String
  title : String
  publication_date : String
  non_academic_authors : List String
  company_affiliations : List String
  corresponding_email : Option String
  deriving DecidableEq, Repr

/-! ## Per-article assembly (body of the loop at lines 142-215) -/

/-- `f"{fore_name or ''} {last_name or ''}".strip()` (line 172). -/
def fullName (au : Author) : String :=
  pyStrip ((au.foreName.getD "") ++ " " ++ (au.lastName.getD ""))

/-- `affiliation_node.text if affiliation_node is not None else ""` (line 176). -/
def affText (au : Author) : String :=
  au.affiliation.getD ""

/-- Authors whose affiliation classifies corporate (line 178). -/
def corporateAuthors (a : Article) : List Author :=
  a.authors.filter (fun au => is_corporate_affiliation (affText au))

/-- Names appended at lines 179-180 (corporate and nonempty name). -/
def nonAcademicNames (a : Article) : List String :=
  ((corporateAuthors a).map fullName).filter (fun n => decide (n ≠ ""))

/-- Affiliations appended at lines 181-182 (corporate and nonempty text). -/
def companyAffs (a : Article) : List String :=
  ((corporateAuthors a).map affText).filter (fun s => decide (s ≠ ""))

/-- `article.findtext(".../AuthorList/Author/AffiliationInfo/Affiliation")`:
the text of the first affiliation element over all authors in order. -/
def firstAffiliationText (a : Article) : Option String :=
  (a.authors.filterMap Author.affiliation).head?

/-- The date extraction at lines 147-162. -/
def formatPubDate (a : Article) : String :=
  match a.pubDate with
  | none => "N/A"
  | some pd =>
    if truthy pd.year then
      let base := pd.year.getD ""
      if truthy pd.month then
        let bm := base ++ ("-" ++ pd.month.getD "")
        if truthy pd.day then bm ++ ("-" ++ pd.day.getD "") else bm
      else base
    else if truthy pd.medlineDate then pd.medlineDate.getD ""
    else "N/A"

/-- The combined text blob of lines 188-193.  When the first affiliation
text found over all authors is truthy, the blob concatenates the title
`findtext`, that affiliation, and the abstract; a `none` title then makes
Python evaluate `None + " "`, raising `TypeError` (`Except.error`).
Otherwise the blob is `""`. -/
def emailBlob (a : Article) : Except Unit String :=
  match firstAffiliationText a with
  | some s =>
    if s ≠ "" then
      match a.articleTitle with
      | none => Except.error ()
      | some t =>
        Except.ok ((((t ++ " ") ++ s) ++ " ") ++
          (match a.abstractText with
           | some ab => if ab ≠ "" then ab else ""
           | none => ""))
    else Except.ok ""
  | none => Except.ok ""

/-- One iteration of the `for article in root.findall(...)` loop
(lines 142-215): `Except.error` when the iteration raises. -/
def assemble (a : Article) : Except Unit (Option PaperInfo) :=
  match emailBlob a with
  | Except.error e => Except.error e
  | Except.ok blob =>
    if (nonAcademicNames a).isEmpty then Except.ok none
    else Except.ok (some ⟨orNA a.pmid, orNA a.articleTitle, formatPubDate a,
      (nonAcademicNames a).dedup, (companyAffs a).dedup,
      if blob = "" then none else extract_first_email_from_text blob⟩)

/-- Convenience view: the record produced for one article, `none` both
when the article is filtered out and when assembly raises. -/
def assembledPaper (a : Article) : Option PaperInfo :=
  match assemble a with
  | Except.ok r => r
  | Except.error _ => none

/-- Whether assembling the article raises an exception. -/
def assembleCrashes (a : Article) : Bool :=
  match assemble a with
  | Except.error _ => true
  | Except.ok _ => false

/-- The whole article loop: an exception at any article aborts the loop
and discards every record collected so far. -/
def processArticles : List Article → Except Unit (List PaperInfo)
  | [] => Except.ok []
  | a :: rest =>
    match assemble a with
    | Except.error e => Except.error e
    | Except.ok none => processArticles rest
    | Except.ok (some r) =>
      match processArticles rest with
      | Except.error e => Except.error e
      | Except.ok rs => Except.ok (r :: rs)

/-! ## Network-facing wrappers

The transport is embedded as an explicit outcome: a successful response
(already parsed), a `requests.exceptions.RequestException`, or an
`ET.ParseError`.  The detail call can additionally hit the
`except Exception` handler when per-article parsing raises. -/

inductive SearchOutcome where
  | success (idTexts : List (Option String))
  | transportFailure
  | parseFailure
  deriving DecidableEq

inductive FetchOutcome where
  | success (articles : List Article)
  | transportFailure
  | parseFailure
  deriving DecidableEq

/-- Embeds `fetch_pubmed_ids` (lines 81-109): the id list it returns and
the diagnostic lines it prints. -/
def fetch_pubmed_ids (outcome : SearchOutcome) : List String × List String :=
  match outcome with
  | SearchOutcome.success idTexts =>
    (idTexts.filterMap (fun o => if truthy o then o else none), [])
  | SearchOutcome.transportFailure => ([], ["Error fetching PubMed IDs"])
  | SearchOutcome.parseFailure => ([], ["Error parsing XML for PubMed IDs"])

structure DetailResult where
  papers : List PaperInfo
  networkCalled : Bool
  log : List String
  deriving DecidableEq, Repr

/-- Embeds `fetch_and_parse_paper_details` (lines 112-228).
`networkCalled` records whether control reached the `requests.get` call. -/
def fetch_and_parse_paper_details (pubmed_ids : List String)
    (outcome : FetchOutcome) : DetailResult :=
  if pubmed_ids.isEmpty then ⟨[], false, []⟩
  else
    match outcome with
    | FetchOutcome.transportFailure =>
      ⟨[], true, ["Error fetching paper details"]⟩
    | FetchOutcome.parseFailure =>
      ⟨[], true, ["Error parsing XML for paper details"]⟩
    | FetchOutcome.success articles =>
      match processArticles articles with
      | Except.error _ =>
        ⟨[], true, ["An unexpected error occurred during detail fetching/parsing"]⟩
      | Except.ok rs => ⟨rs, true, []⟩

/-! ## Substring containment, declaratively -/

theorem listPrefixB_iff (n : List Char) : ∀ l, listPrefixB n l = true ↔ ∃ post, l = n ++ post := by
  induction n with
  | nil =>
    intro l
    simp [listPrefixB]
  | cons a as ih =>
    intro l
    cases l with
    | nil =>
      simp [listPrefixB]
    | cons b bs =>
      simp only [listPrefixB, Bool.and_eq_true, beq_iff_eq, ih bs]
      constructor
      · rintro ⟨rfl, post, rfl⟩
        exact ⟨post, rfl⟩
      · rintro ⟨post, h⟩
        injection h with h1 h2
        exact ⟨h1.symm, post, h2⟩

theorem listContainsB_iff (n : List Char) : ∀ l, listContainsB n l = true ↔
    ∃ pre post, l = pre ++ (n ++ post) := by
  intro l
  induction l with
  | nil =>
    simp only [listContainsB, List.isEmpty_iff]
    constructor
    · rintro rfl
      exact ⟨[], [], rfl⟩
    · rintro ⟨pre, post, h⟩
      rcases List.append_eq_nil.mp h.symm with ⟨rfl, h2⟩
      rcases List.append_eq_nil.mp h2 with ⟨rfl, rfl⟩
      rfl
  | cons b bs ih =>
    simp only [listContainsB, Bool.or_eq_true, listPrefixB_iff, ih]
    constructor
    · rintro (⟨post, h⟩ | ⟨pre, post, h⟩)
      · exact ⟨[], post, by simpa using h⟩
      · exact ⟨b :: pre, post, by simp [h]⟩
    · rintro ⟨pre, post, h⟩
      cases pre with
      | nil =>
        exact Or.inl ⟨post, by simpa using h⟩
      | cons c pre' =>
        injection h with h1 h2
        exact Or.inr ⟨pre', post, h2⟩

theorem substrOf_iff (n h : String) : substrOf n h = true ↔
    ∃ pre post, h.data = pre ++ (n.data ++ post) := by
  unfold substrOf
  exact listContainsB_iff n.data h.data

/-- Claim C2: the classifier returns Corporate exactly when the lowercased
input contains some corporate keyword and no academic keyword; the empty
string classifies Academic. -/
theorem classifier_conjunctive_rule (s : String) :
    (is_corporate_affiliation s = true ↔
      ((∃ w ∈ COMPANY_KEYWORDS, ∃ pre post, (pyLower s).data = pre ++ (w.data ++ post)) ∧
       ∀ w ∈ ACADEMIC_KEYWORDS, ¬ ∃ pre post, (pyLower s).data = pre ++ (w.data ++ post)))
    ∧ is_corporate_affiliation "" = false := by
  constructor
  · unfold is_corporate_affiliation
    simp only [Bool.and_eq_true, Bool.not_eq_true', List.any_eq_true, List.any_eq_false,
      substrOf_iff]
  · decide

/-! ## Lemmas about the email matcher -/

theorem all_takeWhile (p : α → Bool) (l : List α) : (l.takeWhile p).all p = true := by
  rw [List.all_eq_true]
  exact fun x hx => List.mem_takeWhile_imp hx

theorem trySplit_some {cs : List Char} :
    ∀ {k : Nat} {m : List Char}, trySplit cs k = some m →
      ∃ d, 1 ≤ d ∧ validSplit cs d ∧ m = splitResult cs d := by
  intro k
  induction k with
  | zero =>
    intro m h
    simp [trySplit] at h
  | succ k ih =>
    intro m h
    rw [trySplit] at h
    by_cases hv : validSplit cs (k + 1)
    · rw [if_pos hv] at h
      exact ⟨k + 1, Nat.succ_le_succ (Nat.zero_le k), hv, (Option.some.inj h).symm⟩
    · rw [if_neg hv] at h
      exact ih h

theorem trySplit_complete {cs : List Char} {d : Nat} (h1 : 1 ≤ d)
    (hv : validSplit cs d) : ∀ {k : Nat}, d ≤ k → trySplit cs k ≠ none := by
  intro k
  induction k with
  | zero =>
    intro hk
    omega
  | succ k ih =>
    intro hdk
    rw [trySplit]
    by_cases hvk : validSplit cs (k + 1)
    · simp [hvk]
    · rw [if_neg hvk]
      apply ih
      rcases Nat.lt_or_ge d (k + 1) with h | h
      · omega
      · exfalso
        have hdval : d = k + 1 := by omega
        exact hvk (hdval ▸ hv)

theorem matchTail_some {cs m : List Char} (h : matchTail cs = some m) :
    ∃ dom tld rest, m = dom ++ '.' :: tld ∧ cs = m ++ rest ∧ dom ≠ [] ∧
      dom.all isDomainChar = true ∧ 2 ≤ tld.length ∧ tld.all Char.isAlpha = true := by
  obtain ⟨d, hd1, hv, rfl⟩ := trySplit_some h
  obtain ⟨-, hall, hget, hlen⟩ := hv
  have hget' : cs[d]? = some '.' := by
    rw [← List.get?_eq_getElem?]
    exact hget
  obtain ⟨hdlt, hgetel⟩ := List.getElem?_eq_some_iff.mp hget'
  have hdrop : cs.drop d = '.' :: cs.drop (d + 1) := by
    rw [List.drop_eq_getElem_cons hdlt, hgetel]
  have hdw : cs.drop (d + 1) =
      (cs.drop (d + 1)).takeWhile Char.isAlpha ++
        (cs.drop (d + 1)).dropWhile Char.isAlpha :=
    (List.takeWhile_append_dropWhile _ _).symm
  refine ⟨cs.take d, (cs.drop (d + 1)).takeWhile Char.isAlpha,
    (cs.drop (d + 1)).dropWhile Char.isAlpha, rfl, ?_, ?_, hall, hlen,
    all_takeWhile _ _⟩
  · conv_lhs => rw [← List.take_append_drop d cs, hdrop]
    conv_lhs => rw [hdw]
    simp [splitResult, List.append_assoc]
  · have hlt : (cs.take d).length = d := by
      rw [List.length_take]
      omega
    intro hnil
    rw [hnil] at hlt
    simp at hlt
    omega

theorem matchTail_complete (rest : List Char) {dom tld : List Char} (hdom : dom ≠ [])
    (hda : dom.all isDomainChar = true) (hta : tld.all Char.isAlpha = true)
    (htl : 2 ≤ tld.length) :
    matchTail (dom ++ '.' :: (tld ++ rest)) ≠ none := by
  have hd1 : 1 ≤ dom.length := by
    cases dom with
    | nil => exact absurd rfl hdom
    | cons a as => simp
  have hv : validSplit (dom ++ '.' :: (tld ++ rest)) dom.length := by
    refine ⟨hd1, ?_, ?_, ?_⟩
    · rw [List.take_left' rfl]
      exact hda
    · rw [List.get?_eq_getElem?, List.getElem?_append_right (Nat.le_refl _)]
      simp
    · have hdropped : (dom ++ '.' :: (tld ++ rest)).drop (dom.length + 1) = tld ++ rest := by
        have hsplit : dom ++ '.' :: (tld ++ rest) = (dom ++ ['.']) ++ (tld ++ rest) := by
          simp
        rw [hsplit]
        exact List.drop_left' (by simp)
      rw [hdropped]
      have hta' : ∀ a ∈ tld, Char.isAlpha a := by
        rw [List.all_eq_true] at hta
        exact hta
      rw [List.takeWhile_append_of_pos hta']
      rw [List.length_append]
      omega
  have hlen : dom.length ≤ (dom ++ '.' :: (tld ++ rest)).length := by
    rw [List.length_append]
    omega
  exact trySplit_complete hd1 hv hlen

theorem findEmailAt_some {cs m : List Char} (h : findEmailAt cs = some m) :
    EmailShape m ∧ ∃ rest, cs = m ++ rest := by
  unfold findEmailAt at h
  by_cases hc : cs.takeWhile isLocalChar ≠ [] ∧ (cs.dropWhile isLocalChar).head? = some '@'
  · rw [if_pos hc] at h
    obtain ⟨hloc, hhead⟩ := hc
    obtain ⟨dom', hmt, rfl⟩ := Option.map_eq_some'.mp h
    obtain ⟨dom, tld, rest, hdom_eq, htail_eq, hdne, hda, htl, hta⟩ := matchTail_some hmt
    have hdw : cs.dropWhile isLocalChar = '@' :: (cs.dropWhile isLocalChar).tail := by
      cases hdwe : cs.dropWhile isLocalChar with
      | nil => rw [hdwe] at hhead; simp at hhead
      | cons c t =>
        rw [hdwe] at hhead
        simp at hhead
        rw [hhead]
        simp
    constructor
    · exact ⟨cs.takeWhile isLocalChar, dom, tld, by rw [hdom_eq], hloc,
        all_takeWhile _ _, hdne, hda, htl, hta⟩
    · refine ⟨rest, ?_⟩
      conv_lhs => rw [← List.takeWhile_append_dropWhile isLocalChar cs, hdw, htail_eq]
      simp [List.append_assoc]
  · rw [if_neg hc] at h
    exact absurd h (by simp)

theorem findEmailAt_complete {m post : List Char} (hm : EmailShape m) :
    findEmailAt (m ++ post) ≠ none := by
  obtain ⟨loc, dom, tld, rfl, hloc, hlall, hdom, hdall, htl, hta⟩ := hm
  have hre : (loc ++ '@' :: (dom ++ '.' :: tld)) ++ post
      = loc ++ '@' :: (dom ++ '.' :: (tld ++ post)) := by
    simp [List.append_assoc]
  rw [hre]
  have hlall' : ∀ a ∈ loc, isLocalChar a := by
    rw [List.all_eq_true] at hlall
    exact hlall
  have hat : isLocalChar '@' = false := by decide
  have h1 : (loc ++ '@' :: (dom ++ '.' :: (tld ++ post))).takeWhile isLocalChar = loc := by
    rw [List.takeWhile_append_of_pos hlall', List.takeWhile_cons_of_neg (by simp [hat])]
    simp
  have h2 : (loc ++ '@' :: (dom ++ '.' :: (tld ++ post))).dropWhile isLocalChar
      = '@' :: (dom ++ '.' :: (tld ++ post)) := by
    rw [List.dropWhile_append_of_pos hlall', List.dropWhile_cons_of_neg (by simp [hat])]
  unfold findEmailAt
  rw [h1, h2]
  rw [if_pos ⟨hloc, rfl⟩]
  simp only [List.tail_cons]
  have hmt := matchTail_complete post hdom hdall hta htl
  intro hcontra
  rw [Option.map_eq_none'] at hcontra
  exact hmt hcontra

theorem scanEmail_none {cs : List Char} (h : scanEmail cs = none) :
    ∀ pre m post, cs = pre ++ (m ++ post) → ¬EmailShape m := by
  induction cs with
  | nil =>
    intro pre m post he hm
    obtain ⟨loc, dom, tld, hmeq, -⟩ := hm
    rcases List.append_eq_nil.mp he.symm with ⟨rfl, h2⟩
    rcases List.append_eq_nil.mp h2 with ⟨hm0, rfl⟩
    rw [hm0] at hmeq
    rcases List.append_eq_nil.mp hmeq.symm with ⟨-, h4⟩
    exact absurd h4 (by simp)
  | cons c cs ih =>
    intro pre m post he hm
    rw [scanEmail] at h
    cases hf : findEmailAt (c :: cs) with
    | some m' => rw [hf] at h; exact absurd h (by simp)
    | none =>
      rw [hf] at h
      cases pre with
      | nil =>
        simp only [List.nil_append] at he
        exact findEmailAt_complete hm (he ▸ hf)
      | cons d pre' =>
        have he' : cs = pre' ++ (m ++ post) := by
          injection he with h1 h2
        exact ih h pre' m post he' hm

theorem scanEmail_some {cs m : List Char} (h : scanEmail cs = some m) :
    EmailShape m ∧ ∃ pre post, cs = pre ++ (m ++ post) ∧
      ∀ pre2 m2 post2, cs = pre2 ++ (m2 ++ post2) → EmailShape m2 →
        pre.length ≤ pre2.length := by
  induction cs with
  | nil => simp [scanEmail] at h
  | cons c cs ih =>
    rw [scanEmail] at h
    cases hf : findEmailAt (c :: cs) with
    | some m' =>
      rw [hf] at h
      have hmm : m' = m := by
        injection h
      subst hmm
      obtain ⟨hshape, rest, hrest⟩ := findEmailAt_some hf
      exact ⟨hshape, [], rest, by rw [← hrest]; rfl,
        fun pre2 m2 post2 _ _ => Nat.zero_le _⟩
    | none =>
      rw [hf] at h
      obtain ⟨hs, pre, post, he, hmin⟩ := ih h
      refine ⟨hs, c :: pre, post, by rw [he]; rfl, ?_⟩
      intro pre2 m2 post2 he2 hm2
      cases pre2 with
      | nil =>
        simp only [List.nil_append] at he2
        exact absurd hf (by rw [he2]; exact findEmailAt_complete hm2)
      | cons d pre2' =>
        have he2' : cs = pre2' ++ (m2 ++ post2) := by
          injection he2 with h1 h2
        have := hmin pre2' m2 post2 he2' hm2
        simpa using Nat.succ_le_succ this

/-- Claim C8: `extract_first_email_from_text` returns the leftmost
substring matching the email pattern when one exists, and none when the
input contains no such match. -/
theorem email_extractor_leftmost (s : String) :
    (extract_first_email_from_text s = none ↔
      ∀ pre m post, s.data = pre ++ (m ++ post) → ¬EmailShape m)
    ∧ (∀ e, extract_first_email_from_text s = some e →
        EmailShape e.data ∧ ∃ pre post, s.data = pre ++ (e.data ++ post) ∧
          ∀ pre2 m2 post2, s.data = pre2 ++ (m2 ++ post2) → EmailShape m2 →
            pre.length ≤ pre2.length) := by
  constructor
  · constructor
    · intro h
      have hs : scanEmail s.data = none := by
        unfold extract_first_email_from_text at h
        exact Option.map_eq_none'.mp h
      exact scanEmail_none hs
    · intro hno
      unfold extract_first_email_from_text
      cases hsc : scanEmail s.data with
      | none => rfl
      | some m =>
        obtain ⟨hsh, pre, post, he, -⟩ := scanEmail_some hsc
        exact absurd hsh (hno pre m post he)
  · intro e he
    unfold extract_first_email_from_text at he
    obtain ⟨m, hm, hme⟩ := Option.map_eq_some'.mp he
    subst hme
    obtain ⟨hsh, pre, post, heq, hmin⟩ := scanEmail_some hm
    exact ⟨hsh, pre, post, heq, hmin⟩

/-- Witness for C8 at concrete inputs: the match found in
`"contact: a@x.com or b@y.org"` has the email shape, and no piece of
`"no email here"` does. -/
theorem email_extractor_leftmost_witness :
    EmailShape ("a@x.com".data) ∧ ¬EmailShape ("no".data) := by
  constructor
  · exact ((email_extractor_leftmost "contact: a@x.com or b@y.org").2 "a@x.com"
      (by decide)).1
  · exact (email_extractor_leftmost "no email here").1.mp (by decide)
      [] ("no".data) (" email here".data) (by decide)

/-! ## Lemmas about per-article assembly -/

theorem corp_ne_empty {s : String} (h : is_corporate_affiliation s = true) :
    s ≠ "" := by
  intro hs
  rw [hs] at h
  exact absurd h (by decide)

theorem nonAcademicNames_ne_nil_iff (a : Article) :
    nonAcademicNames a ≠ [] ↔ ∃ au ∈ a.authors,
      is_corporate_affiliation (affText au) = true ∧ fullName au ≠ "" := by
  constructor
  · intro h
    obtain ⟨n, hn⟩ := List.exists_mem_of_ne_nil _ h
    unfold nonAcademicNames corporateAuthors at hn
    rw [List.mem_filter] at hn
    obtain ⟨hnmem, hnne⟩ := hn
    rw [List.mem_map] at hnmem
    obtain ⟨au, haumem, hfn⟩ := hnmem
    rw [List.mem_filter] at haumem
    exact ⟨au, haumem.1, haumem.2, by rw [hfn]; simpa using hnne⟩
  · rintro ⟨au, hmem, hcorp, hname⟩
    intro hnil
    have hin : fullName au ∈ nonAcademicNames a := by
      unfold nonAcademicNames corporateAuthors
      rw [List.mem_filter]
      exact ⟨List.mem_map_of_mem _ (List.mem_filter.mpr ⟨hmem, hcorp⟩),
        by simpa using hname⟩
    rw [hnil] at hin
    exact absurd hin (List.not_mem_nil _)

theorem companyAffs_ne_nil {a : Article} {au : Author} (hmem : au ∈ a.authors)
    (hcorp : is_corporate_affiliation (affText au) = true) :
    companyAffs a ≠ [] := by
  intro hnil
  have hin : affText au ∈ companyAffs a := by
    unfold companyAffs corporateAuthors
    rw [List.mem_filter]
    exact ⟨List.mem_map_of_mem _ (List.mem_filter.mpr ⟨hmem, hcorp⟩),
      by simpa using corp_ne_empty hcorp⟩
  rw [hnil] at hin
  exact absurd hin (List.not_mem_nil _)

/-- Successful assembly that yields a record determines every field of it. -/
theorem assemble_ok_some {a : Article} {r : PaperInfo}
    (h : assemble a = Except.ok (some r)) :
    ∃ blob, emailBlob a = Except.ok blob ∧ (nonAcademicNames a).isEmpty = false ∧
      r = ⟨orNA a.pmid, orNA a.articleTitle, formatPubDate a,
        (nonAcademicNames a).dedup, (companyAffs a).dedup,
        if blob = "" then none else extract_first_email_from_text blob⟩ := by
  unfold assemble at h
  cases hb : emailBlob a with
  | error e =>
    rw [hb] at h
    simp at h
  | ok blob =>
    rw [hb] at h
    dsimp only at h
    by_cases hne : (nonAcademicNames a).isEmpty
    · rw [if_pos hne] at h
      have hcontra := Except.ok.inj h
      exact absurd hcontra (by simp)
    · rw [if_neg hne] at h
      have h2 := Option.some.inj (Except.ok.inj h)
      exact ⟨blob, rfl, by simpa using hne, h2.symm⟩

/-! ## Concrete articles used by counterexamples and witnesses -/

/-- A qualifying article: one named author affiliated with Moderna. -/
def artSample : Article :=
  ⟨some "42", some "Title", some ⟨some "2021", some "06", none, none⟩,
   [⟨some "Smith", some "Al", some "Moderna Therapeutics"⟩], none⟩

/-- The record the pipeline produces for `artSample`. -/
def recSample : PaperInfo :=
  ⟨"42", "Title", "2021-06", ["Al Smith"], ["Moderna Therapeutics"], none⟩

/-- An article whose only author is corporate-affiliated but nameless. -/
def artNamelessCorp : Article :=
  ⟨some "1", some "T", none, [⟨none, none, some "pfizer"⟩], none⟩

/-- A qualifying article with no PMID element. -/
def artNoPmid : Article :=
  ⟨none, some "T", none, [⟨some "Smith", some "Al", some "pfizer"⟩], none⟩

/-- The record produced for `artNoPmid`. -/
def recNoPmid : PaperInfo :=
  ⟨"N/A", "T", "N/A", ["Al Smith"], ["pfizer"], none⟩

/-- A qualifying article with no PubDate substructure. -/
def artNoDate : Article :=
  ⟨some "7", some "T", none, [⟨some "Smith", some "Al", some "pfizer"⟩], none⟩

/-- First author has no affiliation node; the second author's affiliation
carries both the corporate keyword and an email address. -/
def artSkipsFirstAuthor : Article :=
  ⟨some "9", some "T", none,
   [⟨some "A", none, none⟩, ⟨some "B", none, some "pfizer a@x.com"⟩], none⟩

/-- An article with a first-author affiliation but no title element:
building the email blob raises `TypeError` in the source. -/
def artTitleCrash : Article :=
  ⟨some "2", none, none, [⟨some "Doe", some "Jo", some "pfizer"⟩], none⟩

/-! ## Claim C1 -/

/-- Counterexample to claim C1 as stated: `artNamelessCorp` has an author
classified corporate, assembly does not raise, yet no record is produced
(the author's computed full name is empty, so the name list stays empty
and the filter drops the article). -/
theorem record_iff_corporate_cex :
    artNamelessCorp.authors.map (fun au => is_corporate_affiliation (affText au)) = [true] ∧
    assembleCrashes artNamelessCorp = false ∧
    assembledPaper artNamelessCorp = none := by
  refine ⟨by decide, by decide, by decide⟩

/-- Claim C1 (amended): when assembly of an article does not raise, a
record is produced for it exactly when some author both classifies
corporate and has a nonempty computed full name.  In particular an article
whose authors all classify Academic yields no record. -/
theorem record_iff_named_corporate (a : Article) (r : Option PaperInfo)
    (h : assemble a = Except.ok r) :
    r.isSome = true ↔ ∃ au ∈ a.authors,
      is_corporate_affiliation (affText au) = true ∧ fullName au ≠ "" := by
  rw [← nonAcademicNames_ne_nil_iff]
  unfold assemble at h
  cases hb : emailBlob a with
  | error e =>
    rw [hb] at h
    simp at h
  | ok blob =>
    rw [hb] at h
    dsimp only at h
    by_cases hne : (nonAcademicNames a).isEmpty
    · rw [if_pos hne] at h
      have hr : r = none := (Except.ok.inj h).symm
      subst hr
      rw [List.isEmpty_iff] at hne
      simp [hne]
    · rw [if_neg hne] at h
      have hr := (Except.ok.inj h).symm
      subst hr
      rw [List.isEmpty_iff] at hne
      simp [hne]

/-- Witness for C1 at a concrete input. -/
theorem record_iff_named_corporate_witness :
    (some recSample).isSome = true ↔ ∃ au ∈ artSample.authors,
      is_corporate_affiliation (affText au) = true ∧ fullName au ≠ "" :=
  record_iff_named_corporate artSample (some recSample) rfl

/-! ## Claim C3 -/

/-- Counterexample to claim C3 as stated: with the PMID element absent the
produced record carries the sentinel "N/A", not "unknown". -/
theorem unknown_sentinel_cex :
    (assembledPaper artNoPmid).map PaperInfo.pubmed_id = some "N/A" ∧
    ("N/A" : String) ≠ "unknown" := by
  refine ⟨by decide, by decide⟩

/-- Claim C3 (amended): when the identifier or the title element is absent
from the article, the corresponding field of the produced record is the
sentinel string "N/A". -/
theorem missing_fields_na_sentinel (a : Article) (r : PaperInfo)
    (h : assemble a = Except.ok (some r)) :
    (a.pmid = none → r.pubmed_id = "N/A") ∧
    (a.articleTitle = none → r.title = "N/A") := by
  obtain ⟨blob, -, -, hr⟩ := assemble_ok_some h
  subst hr
  constructor
  · intro hp
    simp [orNA, hp]
  · intro ht
    simp [orNA, ht]

/-- Witness for C3 at a concrete input. -/
theorem missing_fields_na_sentinel_witness : recNoPmid.pubmed_id = "N/A" :=
  (missing_fields_na_sentinel artNoPmid recNoPmid rfl).1 rfl

/-! ## Claim C4 -/

/-- Counterexample to claim C4 as stated: with no PubDate substructure the
publication-date field of the produced record is "N/A", not "unknown". -/
theorem date_ladder_cex :
    (assembledPaper artNoDate).map PaperInfo.publication_date = some "N/A" ∧
    ("N/A" : String) ≠ "unknown" := by
  refine ⟨by decide, by decide⟩

/-- Claim C4 (amended): the publication-date field follows the ladder
year, year-month, year-month-day when the truthy sub-fields allow,
otherwise the MedlineDate string verbatim, otherwise the sentinel "N/A"
(also when the whole PubDate substructure is missing). -/
theorem date_fallback_ladder (a : Article) :
    (∀ r, assemble a = Except.ok (some r) → r.publication_date = formatPubDate a) ∧
    (a.pubDate = none → formatPubDate a = "N/A") ∧
    ∀ pd, a.pubDate = some pd →
      (truthy pd.year = true → truthy pd.month = true → truthy pd.day = true →
        formatPubDate a =
          (pd.year.getD "" ++ ("-" ++ pd.month.getD "")) ++ ("-" ++ pd.day.getD "")) ∧
      (truthy pd.year = true → truthy pd.month = true → truthy pd.day = false →
        formatPubDate a = pd.year.getD "" ++ ("-" ++ pd.month.getD "")) ∧
      (truthy pd.year = true → truthy pd.month = false →
        formatPubDate a = pd.year.getD "") ∧
      (truthy pd.year = false → truthy pd.medlineDate = true →
        formatPubDate a = pd.medlineDate.getD "") ∧
      (truthy pd.year = false → truthy pd.medlineDate = false →
        formatPubDate a = "N/A") := by
  refine ⟨?_, ?_, ?_⟩
  · intro r h
    obtain ⟨blob, -, -, hr⟩ := assemble_ok_some h
    subst hr
    rfl
  · intro h
    simp [formatPubDate, h]
  · intro pd hpd
    refine ⟨?_, ?_, ?_, ?_, ?_⟩ <;> intro h1 h2 <;>
      first
        | (intro h3; simp [formatPubDate, hpd, h1, h2, h3])
        | simp [formatPubDate, hpd, h1, h2]

/-- Witness for C4 at a concrete input: year and month present, day
absent. -/
theorem date_fallback_ladder_witness :
    formatPubDate artSample = "2021" ++ ("-" ++ "06") :=
  ((date_fallback_ladder artSample).2.2 ⟨some "2021", some "06", none, none⟩
    rfl).2.1 rfl rfl rfl

/-! ## Claim C5 -/

/-- The corresponding-email value the code actually computes, phrased over
the article fields: the blob is scanned only when the first affiliation
text found across all authors (in document order) is nonempty, and that
affiliation, not necessarily the first author's, goes into the blob. -/
def specCorrespondingEmail (a : Article) : Option String :=
  match a.articleTitle, firstAffiliationText a with
  | some t, some s =>
    if s ≠ "" then
      extract_first_email_from_text ((((t ++ " ") ++ s) ++ " ") ++
        (match a.abstractText with
         | some ab => if ab ≠ "" then ab else ""
         | none => ""))
    else none
  | _, _ => none

/-- Counterexample to claim C5 as stated: in `artSkipsFirstAuthor` the
first author has no affiliation node, so the claim's blob (title, first
author's affiliation text, abstract) contains no email, yet the produced
record carries the email found in the second author's affiliation. -/
theorem email_blob_first_author_cex :
    (assembledPaper artSkipsFirstAuthor).map PaperInfo.corresponding_email =
      some (some "a@x.com") ∧
    (artSkipsFirstAuthor.authors.map Author.affiliation).head? = some none ∧
    extract_first_email_from_text (((("T" ++ " ") ++ "") ++ " ") ++ "") = none := by
  refine ⟨by decide, by decide, by decide⟩

theorem ite_extract (blob : String) :
    (if blob = "" then none else extract_first_email_from_text blob) =
      extract_first_email_from_text blob := by
  by_cases h : blob = ""
  · rw [if_pos h, h]
    rfl
  · rw [if_neg h]

/-- Claim C5 (amended): the corresponding-email field equals the first
email match in the blob built from the title, the first affiliation text
found over all authors, and the abstract; it is none when that affiliation
text is absent or empty (the title and abstract are then never scanned). -/
theorem email_from_first_found_affiliation (a : Article) (r : PaperInfo)
    (h : assemble a = Except.ok (some r)) :
    r.corresponding_email = specCorrespondingEmail a := by
  obtain ⟨blob, hblob, -, hr⟩ := assemble_ok_some h
  subst hr
  dsimp only
  rw [ite_extract]
  unfold emailBlob at hblob
  unfold specCorrespondingEmail
  cases hfa : firstAffiliationText a with
  | none =>
    rw [hfa] at hblob
    dsimp only at hblob
    have hb : "" = blob := Except.ok.inj hblob
    rw [← hb]
    cases a.articleTitle <;> rfl
  | some s =>
    rw [hfa] at hblob
    dsimp only at hblob
    by_cases hs : s ≠ ""
    · rw [if_pos hs] at hblob
      cases ht : a.articleTitle with
      | none =>
        rw [ht] at hblob
        simp at hblob
      | some t =>
        rw [ht] at hblob
        dsimp only at hblob
        have hb := Except.ok.inj hblob
        dsimp only
        rw [if_pos hs, ← hb]
    · rw [if_neg hs] at hblob
      have hb : "" = blob := Except.ok.inj hblob
      rw [← hb]
      cases a.articleTitle with
      | none => rfl
      | some t =>
        dsimp only
        rw [if_neg hs]
        rfl

/-- Witness for C5 at a concrete input. -/
theorem email_from_first_found_affiliation_witness :
    recSample.corresponding_email = specCorrespondingEmail artSample :=
  email_from_first_found_affiliation artSample recSample rfl

/-! ## Claim C6 -/

/-- Claim C6: a transport or parse failure at either endpoint is converted
into an empty result (with a logged diagnostic when the call was made);
the Lean embeddings are total functions, so no exception can propagate. -/
theorem soft_failure_empty_results :
    fetch_pubmed_ids SearchOutcome.transportFailure =
      ([], ["Error fetching PubMed IDs"]) ∧
    fetch_pubmed_ids SearchOutcome.parseFailure =
      ([], ["Error parsing XML for PubMed IDs"]) ∧
    ∀ ids, (fetch_and_parse_paper_details ids FetchOutcome.transportFailure).papers = [] ∧
      (fetch_and_parse_paper_details ids FetchOutcome.parseFailure).papers = [] ∧
      (ids ≠ [] →
        (fetch_and_parse_paper_details ids FetchOutcome.transportFailure).log ≠ [] ∧
        (fetch_and_parse_paper_details ids FetchOutcome.parseFailure).log ≠ []) := by
  refine ⟨rfl, rfl, fun ids => ?_⟩
  cases ids with
  | nil => exact ⟨rfl, rfl, fun h => absurd rfl h⟩
  | cons i is =>
    refine ⟨rfl, rfl, fun h => ⟨?_, ?_⟩⟩ <;> simp [fetch_and_parse_paper_details]

/-- Witness for C6 at a concrete input. -/
theorem soft_failure_empty_results_witness :
    (fetch_and_parse_paper_details ["7"] FetchOutcome.transportFailure).papers = [] ∧
    (fetch_and_parse_paper_details ["7"] FetchOutcome.transportFailure).log ≠ [] :=
  ⟨(soft_failure_empty_results.2.2 ["7"]).1,
   ((soft_failure_empty_results.2.2 ["7"]).2.2 (by decide)).1⟩

/-! ## Claim C7 -/

/-- Claim C7: for the empty identifier list the detail fetch returns empty
immediately, whatever the transport would have answered, and the network
request line is never reached. -/
theorem empty_ids_no_network (outcome : FetchOutcome) :
    (fetch_and_parse_paper_details [] outcome).papers = [] ∧
    (fetch_and_parse_paper_details [] outcome).networkCalled = false ∧
    (fetch_and_parse_paper_details [] outcome).log = [] :=
  ⟨rfl, rfl, rfl⟩

/-- Witness for C7 at a concrete outcome. -/
theorem empty_ids_no_network_witness :
    (fetch_and_parse_paper_details [] FetchOutcome.transportFailure).networkCalled
      = false :=
  (empty_ids_no_network FetchOutcome.transportFailure).2.1

/-! ## Claim C9 -/

theorem processArticles_error_of_mem (a : Article) (l2 : List Article)
    (ha : assemble a = Except.error ()) :
    ∀ l1, processArticles (l1 ++ a :: l2) = Except.error () := by
  intro l1
  induction l1 with
  | nil =>
    simp [processArticles, ha]
  | cons b l1 ih =>
    rw [List.cons_append, processArticles]
    cases hb : assemble b with
    | error e => rfl
    | ok r =>
      cases r with
      | none => exact ih
      | some rec0 => rw [ih]

/-- Claim C9: if assembling any single article of the batch raises (for
example `artTitleCrash`: a first-author affiliation is present but the
title element is absent), the whole call returns the empty list,
discarding records already assembled from earlier articles. -/
theorem batch_abort_on_article_error (ids : List String) (pre post : List Article)
    (a : Article) (hids : ids ≠ []) (ha : assemble a = Except.error ()) :
    (fetch_and_parse_paper_details ids
      (FetchOutcome.success (pre ++ a :: post))).papers = [] := by
  have hpe := processArticles_error_of_mem a post ha pre
  cases ids with
  | nil => exact absurd rfl hids
  | cons i is =>
    show (match processArticles (pre ++ a :: post) with
      | Except.error _ => (⟨[], true,
          ["An unexpected error occurred during detail fetching/parsing"]⟩ : DetailResult)
      | Except.ok rs => ⟨rs, true, []⟩).papers = []
    rw [hpe]

/-- Witness for C9 at a concrete input: `artSample` alone yields a record,
but appending the raising `artTitleCrash` wipes the whole batch. -/
theorem batch_abort_on_article_error_witness :
    (fetch_and_parse_paper_details ["1"]
      (FetchOutcome.success [artSample, artTitleCrash])).papers = [] ∧
    (fetch_and_parse_paper_details ["1"]
      (FetchOutcome.success [artSample])).papers = [recSample] :=
  ⟨batch_abort_on_article_error ["1"] [artSample] [] artTitleCrash
    (by decide) rfl, rfl⟩

/-! ## Claim C10 -/

/-- Claim C10: every record the pipeline produces has a nonempty
company-affiliation list, because an author only classifies corporate on a
nonempty affiliation text, which is then appended. -/
theorem company_affiliations_nonempty (a : Article) (r : PaperInfo)
    (h : assemble a = Except.ok (some r)) :
    r.company_affiliations ≠ [] := by
  obtain ⟨blob, -, hne, hr⟩ := assemble_ok_some h
  subst hr
  dsimp only
  have hnames : nonAcademicNames a ≠ [] := by
    intro h0
    rw [h0] at hne
    simp at hne
  obtain ⟨au, hmem, hcorp, -⟩ := (nonAcademicNames_ne_nil_iff a).mp hnames
  have haffs := companyAffs_ne_nil hmem hcorp
  intro hnil
  rw [List.dedup_eq_nil] at hnil
  exact haffs hnil

/-- Witness for C10 at a concrete input. -/
theorem company_affiliations_nonempty_witness :
    recSample.company_affiliations ≠ [] :=
  company_affiliations_nonempty artSample recSample rfl

/-- Witness for C2 at a concrete input. -/
theorem classifier_conjunctive_rule_witness :
    (∃ w ∈ COMPANY_KEYWORDS, ∃ pre post,
      (pyLower "Pfizer Inc., Global R&D").data = pre ++ (w.data ++ post)) ∧
    ∀ w ∈ ACADEMIC_KEYWORDS, ¬ ∃ pre post,
      (pyLower "Pfizer Inc., Global R&D").data = pre ++ (w.data ++ post) :=
  (classifier_conjunctive_rule "Pfizer Inc., Global R&D").1.mp (by decide)
